import Mathlib

/-!
Shallow embedding of `src/task-scheduler.ts` (mongo-task-scheduler).

Modelling conventions:
* JS `Date` instants are `Int` milliseconds since the epoch; within one
  method body every `new Date()` / `Date.now()` call denotes the same
  instant `now`, passed in explicitly.
* The Mongo collection is a `List TaskDefinition`; `findOneAndUpdate`
  mutates the first document matching the filter and (with
  `returnDocument: 'after'`) returns the mutated document; `updateOne`
  keyed by `_id` mutates the first document with that id; `insertOne`
  appends.  A `$lt`/`$gt` comparison on a document where the field is
  absent does not match (BSON type bracketing), which the embedding
  renders by pattern matching on the `Option` field.
* A missing `executionLog` array behaves exactly like the empty array
  under `$push`, `$pop` and `task.executionLog?.length ?? 0`, so the
  field is modelled as a plain `List`.
* The external cron parser (`cron-parser`) is abstracted, per its
  contract, as a function `cronNext : String → Int → Int` from a
  schedule expression and a reference instant to the next fire instant;
  the adapter contract (the result is strictly after the reference) is a
  hypothesis where a claim depends on it.  The timezone option only
  influences the parser, so it is absorbed into `cronNext`.
* Fallible operations return `Except String α`; the error payload is the
  thrown `Error`'s message.
-/

namespace MongoTaskScheduler

/-- Outcome part of a `TaskExecutionLogEntry`: the TS type is a union of
an errored shape (`erroredTime`, `errorMessage`) and a completed shape
(`completedTime`, optional `output`). -/
inductive LogOutcome where
  | errored (erroredTime : Int) (errorMessage : String)
  | completed (completedTime : Int) (output : Option String)
  deriving Repr, DecidableEq

/-- One entry of a task's `executionLog` (TS `TaskExecutionLogEntry`):
both variants carry `receivedTime` and `processingTime`. -/
structure TaskExecutionLogEntry where
  receivedTime : Int
  processingTime : Int
  outcome : LogOutcome
  deriving Repr, DecidableEq

/-- The persisted task record (TS `TaskDefinition`).  Optional TS fields
are `Option`; an absent `executionLog` is modelled as `[]`. -/
structure TaskDefinition where
  _id : String
  cronSchedule : String
  nextScheduledTime : Int
  receivedTime : Option Int := none
  lastErroredTime : Option Int := none
  lastCompletedTime : Option Int := none
  executionLog : List TaskExecutionLogEntry := []
  deriving Repr, DecidableEq

/-- Mongo `findOneAndUpdate` with `returnDocument: 'after'`: mutate the
first document matching `filt` with `f` and return the mutated document,
or return `none` and leave the collection unchanged. -/
def findOneAndUpdate (filt : TaskDefinition → Bool) (f : TaskDefinition → TaskDefinition) :
    List TaskDefinition → Option TaskDefinition × List TaskDefinition
  | [] => (none, [])
  | t :: ts =>
    if filt t then (some (f t), f t :: ts)
    else ((findOneAndUpdate filt f ts).1, t :: (findOneAndUpdate filt f ts).2)

/-- Mongo `updateOne({_id: id}, ...)`: mutate the first document whose
`_id` equals `id` (ids are unique in practice, `_id` being the primary
key). -/
def updateById (id : String) (f : TaskDefinition → TaskDefinition) :
    List TaskDefinition → List TaskDefinition
  | [] => []
  | t :: ts => if t._id = id then f t :: ts else t :: updateById id f ts

/-- Mongo `findOne({_id: id})` as used by `findTask`. -/
def findTask (id : String) (store : List TaskDefinition) : Option TaskDefinition :=
  store.find? (fun t => t._id = id)

/-- Filter of `receiveTask`'s query (src lines 204-211): `_id` among the
registered worker ids, `nextScheduledTime` strictly before now, and
`receivedTime` either absent or strictly older than
`now - processingTimeout`. -/
def receiveMatches (workerIds : List String) (processingTimeout now : Int)
    (t : TaskDefinition) : Bool :=
  workerIds.contains t._id &&
    decide (t.nextScheduledTime < now) &&
    (match t.receivedTime with
     | some r => decide (r < now - processingTimeout)
     | none => true)

/-- The atomic claim operation `receiveTask` (src lines 203-228), on the
happy path (the `catch` arm that reports a store error and yields
`undefined` is part of the polling-loop model below): find one matching
document, set its `receivedTime` to now, return the document after
mutation. -/
def receiveTask (workerIds : List String) (processingTimeout now : Int)
    (store : List TaskDefinition) : Option TaskDefinition × List TaskDefinition :=
  findOneAndUpdate (receiveMatches workerIds processingTimeout now)
    (fun t => { t with receivedTime := some now }) store

/-- Source literal: the executionLog trim threshold in `updateTask`
(src line 235, `>= 10`). -/
def logCap : Nat := 10

/-- Drop the oldest executionLog entry, Mongo `$pop: {executionLog: -1}`
(src line 236). -/
def popOldestLog (t : TaskDefinition) : TaskDefinition :=
  { t with executionLog := t.executionLog.drop 1 }

/-- The private `updateTask` method (src lines 230-238): apply `f` (the
update document) to the record keyed by the snapshot's `_id`, then — when
the in-memory snapshot's executionLog already holds at least `logCap`
entries — pop the oldest entry of the stored record. -/
def updateTaskStore (task : TaskDefinition) (f : TaskDefinition → TaskDefinition)
    (store : List TaskDefinition) : List TaskDefinition :=
  let store1 := updateById task._id f store
  if logCap ≤ task.executionLog.length then updateById task._id popOldestLog store1
  else store1

/-- Update document of `completeTask` (src lines 184-200) applied to a
record: unset `receivedTime`, set `nextScheduledTime` to the schedule
evaluated at `now` + 1 second and `lastCompletedTime` to `now`, push one
completed executionLog entry carrying the worker's output. -/
def completeRecord (cronNext : String → Int → Int) (now : Int) (output : Option String)
    (task : TaskDefinition) (t : TaskDefinition) : TaskDefinition :=
  let nextTime := cronNext task.cronSchedule (now + 1000)
  let received := task.receivedTime.getD now
  { t with
    receivedTime := none
    nextScheduledTime := nextTime
    lastCompletedTime := some now
    executionLog := t.executionLog ++
      [⟨received, now - received, LogOutcome.completed now output⟩] }

/-- The `completeTask` transition (src lines 173-201): build the update
from the claimed snapshot and apply it through `updateTask`. -/
def completeTask (cronNext : String → Int → Int) (task : TaskDefinition)
    (output : Option String) (now : Int) (store : List TaskDefinition) :
    List TaskDefinition :=
  updateTaskStore task (completeRecord cronNext now output task) store

/-- Update document of `releaseTask` (src lines 154-170) applied to a
record: unset `receivedTime`, set `nextScheduledTime` to the schedule
evaluated at `now` + 1 second and `lastErroredTime` to `now`, push one
errored executionLog entry carrying the error's message. -/
def releaseRecord (cronNext : String → Int → Int) (now : Int) (errorMessage : String)
    (task : TaskDefinition) (t : TaskDefinition) : TaskDefinition :=
  let nextTime := cronNext task.cronSchedule (now + 1000)
  let received := task.receivedTime.getD now
  { t with
    receivedTime := none
    nextScheduledTime := nextTime
    lastErroredTime := some now
    executionLog := t.executionLog ++
      [⟨received, now - received, LogOutcome.errored now errorMessage⟩] }

/-- The `releaseTask` transition (src lines 142-171). -/
def releaseTask (cronNext : String → Int → Int) (task : TaskDefinition)
    (errorMessage : String) (now : Int) (store : List TaskDefinition) :
    List TaskDefinition :=
  updateTaskStore task (releaseRecord cronNext now errorMessage task) store

/-- Filter of the `signalProgress` renewal update (src lines 124-126):
`_id` equals the claimed task's id AND `receivedTime` strictly newer than
`now - processingTimeout` (a record with no `receivedTime` does not match
`$gt`). -/
def renewMatches (taskId : String) (processingTimeout now : Int)
    (t : TaskDefinition) : Bool :=
  t._id = taskId &&
    (match t.receivedTime with
     | some r => decide (now - processingTimeout < r)
     | none => false)

/-- The lease-renewal operation exposed to the worker as
`signalProgress` (src lines 121-138): a conditional `findOneAndUpdate`
setting `receivedTime` to now; when nothing matched the call throws
`Task expired or no longer exists` (and the store is untouched). -/
def signalProgress (taskId : String) (processingTimeout now : Int)
    (store : List TaskDefinition) : Except String Unit × List TaskDefinition :=
  let r := findOneAndUpdate (renewMatches taskId processingTimeout now)
    (fun t => { t with receivedTime := some now }) store
  match r.1 with
  | some _ => (Except.ok (), r.2)
  | none => (Except.error "Task expired or no longer exists", r.2)

/-- Local, per-process scheduler state: the worker registry's key set
(`taskWorkers : Map`, modelled by its key list since the claims only
depend on the keys), whether the polling timer has been started
(`pollingIntervalId` defined), whether `databasePromise` is configured,
and the backing store reached through it. -/
structure SchedulerState where
  workerIds : List String
  pollingActive : Bool
  dbConfigured : Bool
  store : List TaskDefinition
  deriving Repr, DecidableEq

/-- `Map.set` on the registry: the key set gains `id` if absent, and is
unchanged if `id` is already registered (the worker value is replaced,
which the key-set model does not track). -/
def registerWorker (id : String) (ws : List String) : List String :=
  if ws.contains id then ws else ws ++ [id]

/-- The public `scheduleTask` method (src lines 41-71): register the
worker and start polling first; then `findTask` (which throws when no
database is configured, src lines 248-251); compute the schedule's next
fire time from now; insert a fresh record when none exists, otherwise
update `cronSchedule` and `nextScheduledTime` when the schedule changed
OR the record is unleased and its stored time is later than the freshly
computed one, and do nothing otherwise.  Returns the resulting local
state and the promise outcome. -/
def scheduleTask (cronNext : String → Int → Int) (id cronSchedule : String)
    (now : Int) (s : SchedulerState) : SchedulerState × Except String Unit :=
  let s := { s with workerIds := registerWorker id s.workerIds, pollingActive := true }
  if !s.dbConfigured then (s, Except.error "No database configured")
  else
    match findTask id s.store with
    | none =>
      let nextTime := cronNext cronSchedule now
      let fresh : TaskDefinition :=
        { _id := id, cronSchedule := cronSchedule, nextScheduledTime := nextTime }
      ({ s with store := s.store ++ [fresh] }, Except.ok ())
    | some task =>
      let nextTime := cronNext cronSchedule now
      if task.cronSchedule ≠ cronSchedule ∨
          (task.receivedTime = none ∧ nextTime < task.nextScheduledTime) then
        let upd := fun t =>
          { t with cronSchedule := cronSchedule, nextScheduledTime := nextTime }
        ({ s with store := updateTaskStore task upd s.store }, Except.ok ())
      else (s, Except.ok ())

/-- Outcomes of the asynchronous sub-operations one poll cycle may
perform, as the `poll` body observes them (src lines 97-111): the raw
result of `receiveTask`'s store round trip, the worker invocation via
`processTask` (which also throws when no worker is registered), and the
settling store writes `completeTask` / `releaseTask`.  Each is an
`Except`: `error` is a rejected promise carrying the error's message. -/
structure PollEnv where
  receiveResult : Except String (Option TaskDefinition)
  processResult : TaskDefinition → Except String (Option String)
  completeResult : TaskDefinition → Option String → Except String Unit
  releaseResult : TaskDefinition → String → Except String Unit

/-- Internal try/catch of `receiveTask` (src lines 219-227): a store
error is routed to `errorHandler` and the call resolves to `undefined`.
Returns (errors reported through `errorHandler`, resolved value). -/
def receiveCaught : Except String (Option TaskDefinition) →
    List String × Option TaskDefinition
  | Except.ok t? => ([], t?)
  | Except.error e => ([e], none)

/-- Control flow of one `poll` cycle (src lines 97-111), faithful to
JavaScript async semantics.  `poll` awaits `receiveTask` (whose own
try/catch is `receiveCaught`); on a claimed task it runs
`await this.processTask(task)` inside `try`, so a worker rejection is
caught, reported to `errorHandler`, and drives `releaseTask`.  Both
settling calls appear as `return this.completeTask(...)` /
`return this.releaseTask(...)`: a promise returned (not awaited) inside
`try` does NOT route its rejection to the `catch` — it becomes the
settlement of the `poll()` promise itself, which `setInterval` never
observes.  Result: (errors reported through `errorHandler`, the cycle
promise's outcome, with `error` = an uncaught rejection). -/
def poll (env : PollEnv) : List String × Except String Unit :=
  match receiveCaught env.receiveResult with
  | (errs, none) => (errs, Except.ok ())
  | (errs, some task) =>
    match env.processResult task with
    | Except.ok output => (errs, env.completeResult task output)
    | Except.error e => (errs ++ [e], env.releaseResult task e)

/-- Start instant (ms after `startPolling`) of the k-th polling cycle.
Modelled from the platform semantics of `setInterval(this.poll,
this.pollingInterval)` (src line 93): the callback fires every
`pollingInterval` ms, and `setInterval` does not await the promise an
async callback returns, so cycle start instants are fixed multiples of
the interval regardless of how long each cycle runs. -/
def cycleStart (pollingInterval k : Nat) : Nat :=
  (k + 1) * pollingInterval

/-- Whether the k-th polling cycle, taking `dur` ms of wall time, is
still in flight at instant `t`. -/
def cycleInFlight (pollingInterval dur t k : Nat) : Bool :=
  decide (cycleStart pollingInterval k ≤ t) &&
    decide (t < cycleStart pollingInterval k + dur)

/-! Helper lemmas about the embedded Mongo operations. -/

theorem findOneAndUpdate_fst_none_iff (filt : TaskDefinition → Bool)
    (f : TaskDefinition → TaskDefinition) (store : List TaskDefinition) :
    (findOneAndUpdate filt f store).1 = none ↔ ∀ t ∈ store, filt t = false := by
  induction store with
  | nil => simp [findOneAndUpdate]
  | cons t ts ih =>
    by_cases h : filt t
    · simp [findOneAndUpdate, h]
    · simp [findOneAndUpdate, h, ih, Bool.not_eq_true]

theorem findOneAndUpdate_no_match (filt : TaskDefinition → Bool)
    (f : TaskDefinition → TaskDefinition) (store : List TaskDefinition)
    (h : ∀ t ∈ store, filt t = false) :
    findOneAndUpdate filt f store = (none, store) := by
  induction store with
  | nil => simp [findOneAndUpdate]
  | cons t ts ih =>
    have ht := h t (by simp)
    have hts := ih (fun u hu => h u (by simp [hu]))
    simp [findOneAndUpdate, ht, hts]

theorem findOneAndUpdate_fst_some (filt : TaskDefinition → Bool)
    (f : TaskDefinition → TaskDefinition) (store : List TaskDefinition)
    (t' : TaskDefinition) (h : (findOneAndUpdate filt f store).1 = some t') :
    t' ∈ (findOneAndUpdate filt f store).2 ∧
      ∃ t ∈ store, filt t = true ∧ t' = f t := by
  induction store with
  | nil => simp [findOneAndUpdate] at h
  | cons t ts ih =>
    by_cases hf : filt t
    · have h1 : findOneAndUpdate filt f (t :: ts) = (some (f t), f t :: ts) := by
        simp [findOneAndUpdate, hf]
      rw [h1] at h ⊢
      simp only [Option.some.injEq] at h
      subst h
      exact ⟨by simp, t, by simp, hf, rfl⟩
    · have h1 : findOneAndUpdate filt f (t :: ts) =
          ((findOneAndUpdate filt f ts).1, t :: (findOneAndUpdate filt f ts).2) := by
        simp [findOneAndUpdate, hf]
      rw [h1] at h ⊢
      rcases ih h with ⟨hmem, u, hu, hfu, ht'⟩
      exact ⟨by simp [hmem], u, by simp [hu], hfu, ht'⟩

theorem findOneAndUpdate_fst_isSome (filt : TaskDefinition → Bool)
    (f : TaskDefinition → TaskDefinition) (store : List TaskDefinition)
    (h : ∃ t ∈ store, filt t = true) :
    ∃ t', (findOneAndUpdate filt f store).1 = some t' := by
  cases he : (findOneAndUpdate filt f store).1 with
  | some t' => exact ⟨t', rfl⟩
  | none =>
    rcases h with ⟨t, ht, hft⟩
    rw [findOneAndUpdate_fst_none_iff] at he
    simp [he t ht] at hft

/-- C1: the atomic claim operation matches a Task Record iff its id is
among the locally registered ids AND its nextScheduledTime is strictly
before now AND (its receivedTime is absent OR older than now minus
processingTimeout); on a match the record returned is the record after
mutation — its receivedTime set to the current instant, as stored — and
with no matching record it returns nothing. -/
theorem receiveTask_claim_protocol (workerIds : List String) (timeout now : Int)
    (store : List TaskDefinition) :
    (∀ t : TaskDefinition, receiveMatches workerIds timeout now t = true ↔
      (t._id ∈ workerIds ∧ t.nextScheduledTime < now ∧
        (t.receivedTime = none ∨ ∃ r, t.receivedTime = some r ∧ r < now - timeout))) ∧
    ((receiveTask workerIds timeout now store).1 = none ↔
      ∀ t ∈ store, receiveMatches workerIds timeout now t = false) ∧
    (∀ t', (receiveTask workerIds timeout now store).1 = some t' →
      t'.receivedTime = some now ∧ t' ∈ (receiveTask workerIds timeout now store).2 ∧
      ∃ t ∈ store, receiveMatches workerIds timeout now t = true ∧
        t' = { t with receivedTime := some now }) := by
  refine ⟨?_, ?_, ?_⟩
  · intro t
    cases hr : t.receivedTime with
    | none => simp [receiveMatches, hr]
    | some r => simp [receiveMatches, hr, and_assoc]
  · exact findOneAndUpdate_fst_none_iff _ _ store
  · intro t' h
    rcases findOneAndUpdate_fst_some _ _ store t' h with ⟨hmem, t, ht, hft, ht'⟩
    subst ht'
    exact ⟨rfl, hmem, t, ht, hft, rfl⟩

theorem findTask_cons (id : String) (t : TaskDefinition) (ts : List TaskDefinition) :
    findTask id (t :: ts) = if t._id = id then some t else findTask id ts := by
  by_cases h : t._id = id
  · simp [findTask, List.find?, h]
  · simp [findTask, List.find?, h]

theorem findTask_some_id (id : String) (store : List TaskDefinition)
    (t : TaskDefinition) (h : findTask id store = some t) : t._id = id := by
  have := List.find?_some h
  simpa using this

theorem findTask_updateById (id : String) (f : TaskDefinition → TaskDefinition)
    (store : List TaskDefinition) (t : TaskDefinition)
    (h : findTask id store = some t) (hid : (f t)._id = t._id) :
    findTask id (updateById id f store) = some (f t) := by
  induction store with
  | nil => simp [findTask] at h
  | cons u us ih =>
    by_cases hu : u._id = id
    · rw [findTask_cons, if_pos hu] at h
      cases h
      rw [updateById, if_pos hu, findTask_cons, if_pos (by rw [hid, hu])]
    · rw [findTask_cons, if_neg hu] at h
      rw [updateById, if_neg hu, findTask_cons, if_neg hu]
      exact ih h

theorem findTask_updateTaskStore (task : TaskDefinition)
    (f : TaskDefinition → TaskDefinition) (store : List TaskDefinition)
    (h : findTask task._id store = some task) (hid : (f task)._id = task._id) :
    findTask task._id (updateTaskStore task f store) =
      some (if logCap ≤ task.executionLog.length then popOldestLog (f task) else f task) := by
  have h1 := findTask_updateById task._id f store task h hid
  by_cases hcap : logCap ≤ task.executionLog.length
  · rw [updateTaskStore, if_pos hcap, if_pos hcap]
    exact findTask_updateById task._id popOldestLog _ (f task) h1 (by simp [popOldestLog])
  · rw [updateTaskStore, if_neg hcap, if_neg hcap]
    exact h1

theorem registerWorker_mem (id : String) (ws : List String) :
    id ∈ registerWorker id ws := by
  by_cases h : id ∈ ws
  · simp [registerWorker, h]
  · simp [registerWorker, h]

theorem findTask_updateTaskStore_reschedule (sched : String) (next : Int)
    (task : TaskDefinition) (store : List TaskDefinition) (id : String)
    (hid : task._id = id) (hfound : findTask id store = some task) :
    ∃ record, findTask id (updateTaskStore task
        (fun t => { t with cronSchedule := sched, nextScheduledTime := next }) store) =
      some record ∧ record.cronSchedule = sched ∧ record.nextScheduledTime = next := by
  have hstep := findTask_updateTaskStore task
    (fun t => { t with cronSchedule := sched, nextScheduledTime := next }) store
    (by rw [hid]; exact hfound) rfl
  rw [hid] at hstep
  refine ⟨_, hstep, ?_, ?_⟩ <;>
    by_cases hcap : logCap ≤ task.executionLog.length <;> simp [hcap, popOldestLog]

/-- C7: for an id with no existing Task Record, `scheduleTask` resolves
and inserts exactly one record: its nextScheduledTime is the schedule's
next fire time computed at the declaration instant — strictly after it,
by the cron adapter's contract — and it carries no lease (receivedTime
absent) and no execution history. -/
theorem scheduleTask_inserts_fresh_record (cronNext : String → Int → Int)
    (id sched : String) (now : Int) (s : SchedulerState)
    (hdb : s.dbConfigured = true) (hnone : findTask id s.store = none)
    (hcron : ∀ e ref, ref < cronNext e ref) :
    (scheduleTask cronNext id sched now s).2 = Except.ok () ∧
    (scheduleTask cronNext id sched now s).1.store =
      s.store ++ [{ _id := id, cronSchedule := sched,
                    nextScheduledTime := cronNext sched now, receivedTime := none,
                    lastErroredTime := none, lastCompletedTime := none,
                    executionLog := [] }] ∧
    now < cronNext sched now := by
  refine ⟨?_, ?_, hcron sched now⟩ <;> simp [scheduleTask, hdb, hnone]

/-- C8: re-declaring an existing Task Record with a schedule string
different from the stored one resolves and overwrites both the stored
schedule and nextScheduledTime with the value recomputed from the new
schedule at the declaration instant, unconditionally (in particular with
no regard to how the recomputed time compares to the stored one or to
the record's lease state). -/
theorem scheduleTask_overwrites_on_new_schedule (cronNext : String → Int → Int)
    (id sched : String) (now : Int) (s : SchedulerState) (task : TaskDefinition)
    (hdb : s.dbConfigured = true) (hfound : findTask id s.store = some task)
    (hdiff : task.cronSchedule ≠ sched) :
    (scheduleTask cronNext id sched now s).2 = Except.ok () ∧
    ∃ record, findTask id (scheduleTask cronNext id sched now s).1.store = some record ∧
      record.cronSchedule = sched ∧ record.nextScheduledTime = cronNext sched now := by
  have hid := findTask_some_id id s.store task hfound
  rcases findTask_updateTaskStore_reschedule sched (cronNext sched now) task s.store id
    hid hfound with ⟨record, hrec, hrs, hrn⟩
  constructor
  · simp [scheduleTask, hdb, hfound, hdiff]
  · refine ⟨record, ?_, hrs, hrn⟩
    simp only [scheduleTask, hdb, Bool.not_true, Bool.false_eq_true, if_false, hfound]
    rw [if_pos (Or.inl hdiff)]
    exact hrec

/-- C2 counterexample: a concrete record with no lease whose stored
nextScheduledTime (100) is later than the freshly computed next time
(50); re-declaring it with the identical schedule string mutates the
stored record, moving nextScheduledTime to 50. -/
theorem scheduleTask_same_schedule_mutates :
    (scheduleTask (fun _ _ => 50) "a" "s" 0
      { workerIds := [], pollingActive := false, dbConfigured := true,
        store := [{ _id := "a", cronSchedule := "s", nextScheduledTime := 100 }] }).1.store =
      [{ _id := "a", cronSchedule := "s", nextScheduledTime := 50 }] ∧
    (100 : Int) ≠ 50 := by
  constructor
  · rfl
  · decide

/-- C2 amended: re-declaring with the identical schedule string leaves
the stored record unchanged when the record holds a lease (receivedTime
present) or when its stored nextScheduledTime is at most the freshly
computed next time; but when the record is unleased and its stored
nextScheduledTime is strictly later than the freshly computed one, the
call overwrites nextScheduledTime with that (earlier) freshly computed
value. -/
theorem scheduleTask_same_schedule_cases (cronNext : String → Int → Int)
    (id sched : String) (now : Int) (s : SchedulerState) (task : TaskDefinition)
    (hdb : s.dbConfigured = true) (hfound : findTask id s.store = some task)
    (hsched : task.cronSchedule = sched) :
    ((task.receivedTime ≠ none ∨ task.nextScheduledTime ≤ cronNext sched now) →
      (scheduleTask cronNext id sched now s).1.store = s.store) ∧
    ((task.receivedTime = none ∧ cronNext sched now < task.nextScheduledTime) →
      ∃ record, findTask id (scheduleTask cronNext id sched now s).1.store = some record ∧
        record.nextScheduledTime = cronNext sched now) := by
  have hid := findTask_some_id id s.store task hfound
  constructor
  · intro hcase
    have hcond : ¬(task.cronSchedule ≠ sched ∨
        (task.receivedTime = none ∧ cronNext sched now < task.nextScheduledTime)) := by
      push_neg
      refine ⟨by simp [hsched], ?_⟩
      intro hrec
      rcases hcase with hlease | hle
      · exact absurd hrec hlease
      · exact hle
    simp only [scheduleTask, hdb, Bool.not_true, Bool.false_eq_true, if_false, hfound]
    rw [if_neg hcond]
  · intro hcase
    rcases findTask_updateTaskStore_reschedule sched (cronNext sched now) task s.store id
      hid hfound with ⟨record, hrec, _, hrn⟩
    refine ⟨record, ?_, hrn⟩
    simp only [scheduleTask, hdb, Bool.not_true, Bool.false_eq_true, if_false, hfound]
    rw [if_pos (Or.inr hcase)]
    exact hrec

/-- C10: `scheduleTask` registers the worker and starts polling before
touching the store, so when the store access fails (no database
configured) the call rejects with that error while the worker stays
registered, the polling timer stays active, and the store is untouched. -/
theorem scheduleTask_registers_before_store (cronNext : String → Int → Int)
    (id sched : String) (now : Int) (s : SchedulerState)
    (hdb : s.dbConfigured = false) :
    (scheduleTask cronNext id sched now s).2 = Except.error "No database configured" ∧
    (scheduleTask cronNext id sched now s).1.workerIds.contains id = true ∧
    (scheduleTask cronNext id sched now s).1.pollingActive = true ∧
    (scheduleTask cronNext id sched now s).1.store = s.store := by
  refine ⟨?_, ?_, ?_, ?_⟩ <;>
    simp [scheduleTask, hdb, registerWorker_mem]

theorem updateTaskStore_singleton (task : TaskDefinition)
    (f : TaskDefinition → TaskDefinition) (hid : (f task)._id = task._id) :
    updateTaskStore task f [task] =
      [if logCap ≤ task.executionLog.length then popOldestLog (f task) else f task] := by
  by_cases hcap : logCap ≤ task.executionLog.length
  · simp [updateTaskStore, updateById, hcap, hid]
  · simp [updateTaskStore, updateById, hcap]

/-- C4: settling a claimed task with its stored record present: both
transitions clear receivedTime, append exactly one outcome entry to the
execution log (evicting the oldest first when the log is already at the
cap), and store a fresh nextScheduledTime obtained by evaluating the
cron schedule at now shifted one second (1000 ms) forward; completion
additionally sets lastCompletedTime and appends a completed entry
carrying the worker's output, while release additionally sets
lastErroredTime and appends an errored entry carrying the error's
message. -/
theorem completeTask_releaseTask_settle (cronNext : String → Int → Int)
    (task : TaskDefinition) (output : Option String) (errMsg : String) (now : Int) :
    ∃ tc tr : TaskDefinition,
      completeTask cronNext task output now [task] = [tc] ∧
      releaseTask cronNext task errMsg now [task] = [tr] ∧
      tc.receivedTime = none ∧ tr.receivedTime = none ∧
      tc.nextScheduledTime = cronNext task.cronSchedule (now + 1000) ∧
      tr.nextScheduledTime = cronNext task.cronSchedule (now + 1000) ∧
      tc.lastCompletedTime = some now ∧ tr.lastErroredTime = some now ∧
      (∃ e : TaskExecutionLogEntry, e.outcome = LogOutcome.completed now output ∧
        tc.executionLog = (if logCap ≤ task.executionLog.length
          then (task.executionLog ++ [e]).drop 1 else task.executionLog ++ [e])) ∧
      (∃ e : TaskExecutionLogEntry, e.outcome = LogOutcome.errored now errMsg ∧
        tr.executionLog = (if logCap ≤ task.executionLog.length
          then (task.executionLog ++ [e]).drop 1 else task.executionLog ++ [e])) := by
  have hc := updateTaskStore_singleton task (completeRecord cronNext now output task) rfl
  have hr := updateTaskStore_singleton task (releaseRecord cronNext now errMsg task) rfl
  by_cases hcap : logCap ≤ task.executionLog.length
  · rw [if_pos hcap] at hc hr
    refine ⟨_, _, hc, hr, ?_, ?_, ?_, ?_, ?_, ?_,
      ⟨⟨task.receivedTime.getD now, now - task.receivedTime.getD now,
        LogOutcome.completed now output⟩, rfl, ?_⟩,
      ⟨⟨task.receivedTime.getD now, now - task.receivedTime.getD now,
        LogOutcome.errored now errMsg⟩, rfl, ?_⟩⟩ <;>
      simp [completeRecord, releaseRecord, popOldestLog, hcap]
  · rw [if_neg hcap] at hc hr
    refine ⟨_, _, hc, hr, ?_, ?_, ?_, ?_, ?_, ?_,
      ⟨⟨task.receivedTime.getD now, now - task.receivedTime.getD now,
        LogOutcome.completed now output⟩, rfl, ?_⟩,
      ⟨⟨task.receivedTime.getD now, now - task.receivedTime.getD now,
        LogOutcome.errored now errMsg⟩, rfl, ?_⟩⟩ <;>
      simp [completeRecord, releaseRecord, hcap]

/-- One settlement of a claimed task, as driven by the polling loop:
either `completeTask` (with the worker's output) or `releaseTask` (with
an error's message), each at some settlement instant. -/
inductive Settlement where
  | complete (now : Int) (output : Option String)
  | release (now : Int) (errorMessage : String)

/-- Effect of one settlement on a Task Record, read back from the
store-level transitions applied to the record's one-document store. -/
def settleStep (cronNext : String → Int → Int) : Settlement → TaskDefinition → TaskDefinition
  | Settlement.complete now output, t => (completeTask cronNext t output now [t]).headD t
  | Settlement.release now msg, t => (releaseTask cronNext t msg now [t]).headD t

theorem settleStep_log (cronNext : String → Int → Int) (s : Settlement)
    (t : TaskDefinition) :
    ∃ e : TaskExecutionLogEntry, (settleStep cronNext s t).executionLog =
      (if logCap ≤ t.executionLog.length
        then (t.executionLog ++ [e]).drop 1 else t.executionLog ++ [e]) := by
  cases s with
  | complete now output =>
    have hc := updateTaskStore_singleton t (completeRecord cronNext now output t) rfl
    refine ⟨⟨t.receivedTime.getD now, now - t.receivedTime.getD now,
      LogOutcome.completed now output⟩, ?_⟩
    by_cases hcap : logCap ≤ t.executionLog.length
    · rw [if_pos hcap] at hc
      simp [settleStep, completeTask, hc, completeRecord, popOldestLog, hcap]
    · rw [if_neg hcap] at hc
      simp [settleStep, completeTask, hc, completeRecord, hcap]
  | release now msg =>
    have hr := updateTaskStore_singleton t (releaseRecord cronNext now msg t) rfl
    refine ⟨⟨t.receivedTime.getD now, now - t.receivedTime.getD now,
      LogOutcome.errored now msg⟩, ?_⟩
    by_cases hcap : logCap ≤ t.executionLog.length
    · rw [if_pos hcap] at hr
      simp [settleStep, releaseTask, hr, releaseRecord, popOldestLog, hcap]
    · rw [if_neg hcap] at hr
      simp [settleStep, releaseTask, hr, releaseRecord, hcap]

/-- C5: under any sequence of settlements the execution log never grows
past the cap of 10 entries, and a settlement hitting a record already
holding 10 entries evicts the oldest entry first: the new log is the old
log minus its head, with the fresh entry appended (strict FIFO). -/
theorem executionLog_fifo_cap (cronNext : String → Int → Int)
    (ss : List Settlement) (t : TaskDefinition)
    (hlen : t.executionLog.length ≤ logCap) :
    (ss.foldl (fun r s => settleStep cronNext s r) t).executionLog.length ≤ logCap ∧
    (∀ s : Settlement, ∀ u : TaskDefinition, u.executionLog.length = logCap →
      ∃ e, (settleStep cronNext s u).executionLog = u.executionLog.drop 1 ++ [e]) := by
  constructor
  · induction ss generalizing t with
    | nil => exact hlen
    | cons s ss ih =>
      refine List.foldl_cons _ _ ▸ ih _ ?_
      rcases settleStep_log cronNext s t with ⟨e, he⟩
      by_cases hcap : logCap ≤ t.executionLog.length
      · rw [he, if_pos hcap]
        simp only [List.length_drop, List.length_append, List.length_singleton]
        omega
      · rw [he, if_neg hcap]
        simp only [List.length_append, List.length_singleton]
        omega
  · intro s u hu
    rcases settleStep_log cronNext s u with ⟨e, he⟩
    refine ⟨e, ?_⟩
    have h10 : u.executionLog.length = 10 := hu
    rw [he, if_pos (le_of_eq hu.symm)]
    rw [List.drop_append_of_le_length (by omega)]

/-- C6: the lease renewal performed by `signalProgress` is a conditional
update matched by the task id AND a receivedTime strictly newer than now
minus processingTimeout, setting receivedTime to the current instant;
when no record matches, the call fails with the lease-expired error
`Task expired or no longer exists` and the store is left untouched. -/
theorem signalProgress_renews_or_expires (taskId : String) (timeout now : Int)
    (store : List TaskDefinition) :
    (∀ t : TaskDefinition, renewMatches taskId timeout now t = true ↔
      (t._id = taskId ∧ ∃ r, t.receivedTime = some r ∧ now - timeout < r)) ∧
    ((∀ t ∈ store, renewMatches taskId timeout now t = false) →
      signalProgress taskId timeout now store =
        (Except.error "Task expired or no longer exists", store)) ∧
    ((∃ t ∈ store, renewMatches taskId timeout now t = true) →
      (signalProgress taskId timeout now store).1 = Except.ok () ∧
      ∃ t ∈ store, renewMatches taskId timeout now t = true ∧
        { t with receivedTime := some now } ∈ (signalProgress taskId timeout now store).2) := by
  refine ⟨?_, ?_, ?_⟩
  · intro t
    cases hr : t.receivedTime with
    | none => simp [renewMatches, hr]
    | some r => simp [renewMatches, hr]
  · intro hnone
    have h := findOneAndUpdate_no_match (renewMatches taskId timeout now)
      (fun t => { t with receivedTime := some now }) store hnone
    simp [signalProgress, h]
  · intro hsome
    rcases findOneAndUpdate_fst_isSome (renewMatches taskId timeout now)
      (fun t => { t with receivedTime := some now }) store hsome with ⟨t', ht'⟩
    rcases findOneAndUpdate_fst_some (renewMatches taskId timeout now)
      (fun t => { t with receivedTime := some now }) store t' ht' with ⟨hmem, t, htm, htf, hte⟩
    constructor
    · simp [signalProgress, ht']
    · refine ⟨t, htm, htf, ?_⟩
      rw [← hte]
      simpa [signalProgress, ht'] using hmem

/-- C3 counterexample: one concrete poll cycle whose claim and worker
both succeed but whose completion store write rejects: `poll` reports
nothing through the error channel (first component `[]`) and the cycle's
promise rejects with the settling error, which nothing catches. -/
theorem poll_settle_error_escapes :
    poll { receiveResult := Except.ok (some { _id := "a", cronSchedule := "s",
                                              nextScheduledTime := 0 }),
           processResult := fun _ => Except.ok none,
           completeResult := fun _ _ => Except.error "write failed",
           releaseResult := fun _ _ => Except.ok () } =
      ([], Except.error "write failed") := rfl

/-- C3 amended: inside one poll cycle, a claim-step error is reported
through the error channel and swallowed (the cycle resolves normally),
and a worker error is reported and then drives the release transition;
but the settling store write's outcome (completion or release) becomes
the cycle promise's own outcome without being caught or reported, so a
settling rejection escapes the loop body as an unhandled rejection. -/
theorem poll_error_routing (env : PollEnv) :
    (env.receiveResult = Except.ok none → poll env = ([], Except.ok ())) ∧
    (∀ e, env.receiveResult = Except.error e → poll env = ([e], Except.ok ())) ∧
    (∀ t output, env.receiveResult = Except.ok (some t) →
      env.processResult t = Except.ok output →
      poll env = ([], env.completeResult t output)) ∧
    (∀ t e, env.receiveResult = Except.ok (some t) →
      env.processResult t = Except.error e →
      poll env = ([e], env.releaseResult t e)) := by
  refine ⟨?_, ?_, ?_, ?_⟩
  · intro h
    simp [poll, receiveCaught, h]
  · intro e h
    simp [poll, receiveCaught, h]
  · intro t output hrec hproc
    simp [poll, receiveCaught, hrec, hproc]
  · intro t e hrec hproc
    simp [poll, receiveCaught, hrec, hproc]

/-- C9 counterexample: with a polling interval of 1 ms and a cycle that
takes 2 ms, cycles 0 and 1 are both in flight at instant 2 — `setInterval`
fires each cycle on schedule without waiting for the previous cycle's
promise to settle, so polling cycles in one process do overlap. -/
theorem polling_cycles_overlap :
    cycleInFlight 1 2 2 0 = true ∧ cycleInFlight 1 2 2 1 = true ∧ (0 : Nat) ≠ 1 := by
  decide

/-- C9 amended: cycle start instants are fixed multiples of the polling
interval (the repeating timer never waits for the previous cycle's
promise), so cycles of one process are pairwise non-overlapping exactly
when each cycle's duration stays within the polling interval; under that
bound at most one cycle is in flight at any instant. -/
theorem polling_cycles_no_overlap_when_fast (pollingInterval dur : Nat)
    (hdur : dur ≤ pollingInterval) (t k1 k2 : Nat)
    (h1 : cycleInFlight pollingInterval dur t k1 = true)
    (h2 : cycleInFlight pollingInterval dur t k2 = true) : k1 = k2 := by
  simp only [cycleInFlight, cycleStart, Bool.and_eq_true, decide_eq_true_eq] at h1 h2
  rcases Nat.eq_zero_or_pos pollingInterval with hz | hp
  · subst hz
    omega
  · have e1 : t / pollingInterval = k1 + 1 :=
      Nat.div_eq_of_lt_le h1.1 (by
        have := h1.2
        calc t < (k1 + 1) * pollingInterval + dur := this
        _ ≤ (k1 + 1) * pollingInterval + pollingInterval := by omega
        _ = (k1 + 1 + 1) * pollingInterval := by ring)
    have e2 : t / pollingInterval = k2 + 1 :=
      Nat.div_eq_of_lt_le h2.1 (by
        have := h2.2
        calc t < (k2 + 1) * pollingInterval + dur := this
        _ ≤ (k2 + 1) * pollingInterval + pollingInterval := by omega
        _ = (k2 + 1 + 1) * pollingInterval := by ring)
    omega

/-! Concrete witnesses instantiating each conditional theorem. -/

theorem receiveTask_claim_protocol_witness :
    receiveMatches ["a"] 60000 100000
      { _id := "a", cronSchedule := "s", nextScheduledTime := 0 } = true :=
  ((receiveTask_claim_protocol ["a"] 60000 100000 []).1 _).mpr
    ⟨by simp, by norm_num, Or.inl rfl⟩

theorem scheduleTask_inserts_fresh_record_witness :
    (scheduleTask (fun _ t => t + 60000) "a" "s" 0
      { workerIds := [], pollingActive := false, dbConfigured := true,
        store := [] }).2 = Except.ok () :=
  (scheduleTask_inserts_fresh_record (fun _ t => t + 60000) "a" "s" 0
    { workerIds := [], pollingActive := false, dbConfigured := true, store := [] }
    rfl rfl (fun _ ref => by show ref < ref + 60000; omega)).1

theorem scheduleTask_overwrites_on_new_schedule_witness :
    (scheduleTask (fun _ _ => 50) "a" "u" 0
      { workerIds := [], pollingActive := false, dbConfigured := true,
        store := [⟨"a", "s", 100, none, none, none, []⟩] }).2 = Except.ok () ∧
    ∃ record, findTask "a" (scheduleTask (fun _ _ => 50) "a" "u" 0
      { workerIds := [], pollingActive := false, dbConfigured := true,
        store := [⟨"a", "s", 100, none, none, none, []⟩] }).1.store = some record ∧
      record.cronSchedule = "u" ∧ record.nextScheduledTime = 50 :=
  scheduleTask_overwrites_on_new_schedule (fun _ _ => 50) "a" "u" 0
    { workerIds := [], pollingActive := false, dbConfigured := true,
      store := [⟨"a", "s", 100, none, none, none, []⟩] }
    ⟨"a", "s", 100, none, none, none, []⟩ rfl rfl (by decide)

theorem scheduleTask_same_schedule_cases_witness :
    (scheduleTask (fun _ _ => 50) "a" "s" 0
      { workerIds := [], pollingActive := false, dbConfigured := true,
        store := [⟨"a", "s", 100, some 5, none, none, []⟩] }).1.store =
      [⟨"a", "s", 100, some 5, none, none, []⟩] :=
  (scheduleTask_same_schedule_cases (fun _ _ => 50) "a" "s" 0
    { workerIds := [], pollingActive := false, dbConfigured := true,
      store := [⟨"a", "s", 100, some 5, none, none, []⟩] }
    ⟨"a", "s", 100, some 5, none, none, []⟩ rfl rfl rfl).1 (Or.inl (by simp))

theorem scheduleTask_registers_before_store_witness :
    (scheduleTask (fun _ _ => 0) "a" "s" 0
      { workerIds := [], pollingActive := false, dbConfigured := false,
        store := [] }).2 = Except.error "No database configured" ∧
    (scheduleTask (fun _ _ => 0) "a" "s" 0
      { workerIds := [], pollingActive := false, dbConfigured := false,
        store := [] }).1.pollingActive = true :=
  ⟨(scheduleTask_registers_before_store (fun _ _ => 0) "a" "s" 0 _ rfl).1,
   (scheduleTask_registers_before_store (fun _ _ => 0) "a" "s" 0 _ rfl).2.2.1⟩

theorem completeTask_releaseTask_settle_witness :
    (completeTask (fun _ _ => 7) ⟨"a", "s", 0, some 1, none, none, []⟩
      (some "out") 2 [⟨"a", "s", 0, some 1, none, none, []⟩]).length = 1 := by
  rcases completeTask_releaseTask_settle (fun _ _ => 7)
    ⟨"a", "s", 0, some 1, none, none, []⟩ (some "out") "err" 2 with ⟨tc, tr, hc, _⟩
  rw [hc]
  rfl

theorem executionLog_fifo_cap_witness :
    (([Settlement.complete 5 none]).foldl
      (fun r s => settleStep (fun _ _ => 0) s r)
      ⟨"a", "s", 0, none, none, none, []⟩).executionLog.length ≤ logCap :=
  (executionLog_fifo_cap (fun _ _ => 0) [Settlement.complete 5 none]
    ⟨"a", "s", 0, none, none, none, []⟩ (by decide)).1

theorem signalProgress_renews_or_expires_witness :
    signalProgress "a" 60 100 [] =
      (Except.error "Task expired or no longer exists", []) :=
  (signalProgress_renews_or_expires "a" 60 100 []).2.1 (by simp)

theorem poll_error_routing_witness :
    poll { receiveResult := Except.error "boom",
           processResult := fun _ => Except.ok none,
           completeResult := fun _ _ => Except.ok (),
           releaseResult := fun _ _ => Except.ok () } =
      (["boom"], Except.ok ()) :=
  (poll_error_routing _).2.1 "boom" rfl

theorem polling_cycles_no_overlap_when_fast_witness :
    cycleInFlight 2 1 2 0 = true ∧ (0 : Nat) = 0 :=
  ⟨by decide,
   polling_cycles_no_overlap_when_fast 2 1 (by decide) 2 0 0 (by decide) (by decide)⟩

end MongoTaskScheduler
